import Mathlib

/-!
Verification of the calibration-artifact resolution and promotion core of
cta-lstchain (`lstchain/onsite.py`).

Two shallow embeddings are developed:

* The monitoring tree holding pedestal and time-calibration files is modelled
  as a list of `CalibFile` records (date directory, production version `pro`
  directory, run number embedded in the file name).  `find_pedestal_file` and
  `find_time_calibration_file` are translated from the source over this model:
  Python's `sorted` over globbed paths becomes an insertion sort by the path
  key (date directory first, then the zero-padded run number in the file
  name), and the raised `ValueError` / `IOError` exceptions become values of
  an explicit error type carrying the exact message built by the source.

* The directory tree mutated by `create_pro_symlink` is modelled as an
  association list from absolute paths (lists of components) to entries
  (directory, regular file, or symbolic link).  `Path.resolve` becomes a
  fuel-bounded symlink-chase (the fuel bounds the number of symlink hops,
  mirroring the kernel's `ELOOP` limit), `Path.exists` follows symlinks, and
  `Path.unlink` / `Path.symlink_to` are explicit mutations.  The function
  additionally returns the list of mutations it performed so that no-op
  behaviour is provable.
-/

/-! ## Generic insertion sort (model of Python `sorted`) -/

def insertSorted {α : Type} (le : α → α → Bool) (x : α) : List α → List α
  | [] => [x]
  | y :: ys => if le x y then x :: y :: ys else y :: insertSorted le x ys

def sortByLe {α : Type} (le : α → α → Bool) : List α → List α
  | [] => []
  | x :: xs => insertSorted le x (sortByLe le xs)

theorem mem_insertSorted {α : Type} (le : α → α → Bool) (x y : α) :
    ∀ l : List α, y ∈ insertSorted le x l ↔ y = x ∨ y ∈ l := by
  intro l
  induction l with
  | nil => simp [insertSorted]
  | cons z zs ih =>
    simp only [insertSorted]
    by_cases h : le x z = true
    · simp [h]
    · simp only [if_neg h, List.mem_cons, ih]
      tauto

theorem length_insertSorted {α : Type} (le : α → α → Bool) (x : α) :
    ∀ l : List α, (insertSorted le x l).length = l.length + 1 := by
  intro l
  induction l with
  | nil => simp [insertSorted]
  | cons z zs ih =>
    simp only [insertSorted]
    by_cases h : le x z = true
    · simp [h]
    · simp [h, ih]

theorem mem_sortByLe {α : Type} (le : α → α → Bool) (y : α) :
    ∀ l : List α, y ∈ sortByLe le l ↔ y ∈ l := by
  intro l
  induction l with
  | nil => simp [sortByLe]
  | cons x xs ih => simp [sortByLe, mem_insertSorted, ih]

theorem length_sortByLe {α : Type} (le : α → α → Bool) :
    ∀ l : List α, (sortByLe le l).length = l.length := by
  intro l
  induction l with
  | nil => rfl
  | cons x xs ih => simp [sortByLe, length_insertSorted, ih]

/-! ## Errors raised by the resolution functions

The source raises `ValueError` (insufficient arguments) and `IOError` (lookup
failures) with formatted messages; `create_pro_symlink` can additionally run
into `OSError` subclasses raised by `Path.unlink` and `Path.symlink_to`. -/

inductive PyErr : Type
  | valueError (msg : String)
  | ioError (msg : String)
  | fileExistsError
  | fileNotFoundError
  | isADirectoryError
  deriving DecidableEq, Repr

/-! ## The monitoring tree model

A `CalibFile` stands for one calibration file stored at
`<tree>/<date>/<pro>/<stem>.Run<run, zero-padded to 5 digits>.0000.h5`.
The run number recorded here is the one embedded in the file name (what
`parse_calibration_name` from `lstchain/paths.py` extracts). -/

structure CalibFile : Type where
  date : String
  pro : String
  run : Nat
  deriving DecidableEq, Repr

/-- Zero-padded run field produced by Python's format spec `05d`: at least
five characters, longer when the decimal representation needs more. -/
def padRun5 (n : Nat) : String :=
  let s := toString n
  String.mk (List.replicate (5 - s.length) '0') ++ s

/-- Lexicographic comparison of character lists by code point — the string
order Python uses when sorting paths. -/
def listCharLt : List Char → List Char → Bool
  | [], [] => false
  | [], _ :: _ => true
  | _ :: _, [] => false
  | c :: cs, d :: ds =>
    if c.toNat < d.toNat then true
    else if d.toNat < c.toNat then false
    else listCharLt cs ds

/-- Strict string order by code points (Python's `str` comparison). -/
def strLt (a b : String) : Bool := listCharLt a.data b.data

/-- Lexicographic path order of two calibration files of the same tree and
the same production version: the date directory is compared first, then the
file name.  Since file names embed the run number zero-padded to a fixed
width of 5 digits, comparing file names is comparing run numbers numerically
(for run numbers below 100000, which the repository's run numbers are). -/
def calibLe (a b : CalibFile) : Bool :=
  if a.date = b.date then decide (a.run ≤ b.run) else strLt a.date b.date

/-- Absolute path of a pedestal file, as returned (after `resolve()`, which
is the identity on this canonical tree). -/
def pedPath (base : List String) (f : CalibFile) : List String :=
  base ++ ["monitoring", "PixelCalibration", "LevelA", "drs4_baseline",
    f.date, f.pro, "drs4_pedestal.Run" ++ padRun5 f.run ++ ".0000.h5"]

/-- Absolute path of a time-calibration file. -/
def tcPath (base : List String) (f : CalibFile) : List String :=
  base ++ ["monitoring", "PixelCalibration", "LevelA",
    "drs4_time_sampling_from_FF",
    f.date, f.pro, "time_calibration.Run" ++ padRun5 f.run ++ ".0000.h5"]

/-- Rendering of a Python list of paths, as interpolated into an error
message; the exact textual form is immaterial, it carries the full list. -/
def showPathList (paths : List (List String)) : String :=
  "[" ++ String.intercalate ", " (paths.map (String.intercalate "/")) ++ "]"

def errMissingArg : PyErr :=
  PyErr.valueError "Must give at least `date` or `run`"

def errPedRunNotFound (r : Nat) : PyErr :=
  PyErr.ioError ("Pedestal file from run " ++ (toString r ++ " not found\n"))

def errPedDateNotFound (d : String) : PyErr :=
  PyErr.ioError ("No pedestal file found for date " ++ d)

def errPedAmbiguous (d : String) (paths : List (List String)) : PyErr :=
  PyErr.ioError ("Too many pedestal files found for date " ++
    (d ++ (": " ++ (showPathList paths ++ ", choose one run\n"))))

def errTCEmpty (pro : String) : PyErr :=
  PyErr.ioError ("No time calibration file found in the data tree for prod " ++
    (pro ++ "\n"))

def errTCNoneBefore (run : Nat) (pro : String) : PyErr :=
  PyErr.ioError ("No time calibration file found before run " ++
    (toString run ++ (" for prod " ++ (pro ++ "\n"))))

def errTCRunNotFound (tr : Nat) : PyErr :=
  PyErr.ioError ("Time calibration file from run " ++
    (toString tr ++ " not found\n"))

/-- Translation of `find_pedestal_file(pro, pedestal_run, date, base_dir)`.

The recursive glob for pattern `<pro>/drs4_pedestal.Run<run:05d>.0000.h5`
matches exactly the tree entries whose production version equals `pro` and
whose file name embeds run `r` (the zero-padded run field determines the run
uniquely); the non-recursive glob of `drs4_pedestal*.0000.h5` inside
`<tree>/<date>/<pro>` matches exactly the entries with that date and
production version.  `sorted` orders the globbed paths; for the run branch
all file names coincide so the order is by date directory, for the date
branch the directory is fixed so the order is by run number. -/
def find_pedestal_file (base : List String) (tree : List CalibFile)
    (pro : String) (pedestal_run : Option Nat) (date : Option String) :
    Except PyErr (List String) :=
  match pedestal_run, date with
  | none, none => Except.error errMissingArg
  | some r, _ =>
    match sortByLe calibLe (tree.filter (fun f => f.pro == pro && f.run == r)) with
    | [] => Except.error (errPedRunNotFound r)
    | f :: _ => Except.ok (pedPath base f)
  | none, some d =>
    match sortByLe calibLe (tree.filter (fun f => f.date == d && f.pro == pro)) with
    | [] => Except.error (errPedDateNotFound d)
    | [f] => Except.ok (pedPath base f)
    | fs => Except.error (errPedAmbiguous d (fs.map (pedPath base)))

/-- The floor-search loop of `find_time_calibration_file` (`time_run=None`):
walk the sorted candidate list, remember the last candidate whose embedded
run number is at most the target, and stop at the first larger one. -/
def floorLoop (run : Nat) : List CalibFile → Option CalibFile → Option CalibFile
  | [], best => best
  | f :: rest, best =>
    if f.run ≤ run then floorLoop run rest (some f) else best

/-- Translation of `find_time_calibration_file(pro, run, time_run, base_dir)`.

The recursive glob for `*/<pro>/time_calibration.Run*.0000.h5` matches every
tree entry of production version `pro`; with an explicit `time_run` the
pattern pins the run number as well.  `parse_calibration_name` (defined in
`lstchain/paths.py`, outside the sources at hand) is, per the specification,
the parser of the run number embedded in a calibration file name; in this
model every candidate carries that run number directly. -/
def find_time_calibration_file (base : List String) (tree : List CalibFile)
    (pro : String) (run : Nat) (time_run : Option Nat) :
    Except PyErr (List String) :=
  match time_run with
  | none =>
    match sortByLe calibLe (tree.filter (fun f => f.pro == pro)) with
    | [] => Except.error (errTCEmpty pro)
    | f :: rest =>
      match floorLoop run (f :: rest) none with
      | none => Except.error (errTCNoneBefore run pro)
      | some c => Except.ok (tcPath base c)
  | some tr =>
    match sortByLe calibLe (tree.filter (fun f => f.pro == pro && f.run == tr)) with
    | [] => Except.error (errTCRunNotFound tr)
    | f :: _ => Except.ok (tcPath base f)

/-! ## The filesystem model for `create_pro_symlink`

Absolute paths are lists of components; the filesystem is an association
list from paths to entries.  Symbolic-link targets are stored as absolute
paths (in the source they are the already-resolved `output_dir`). -/

inductive Entry : Type
  | dir
  | file
  | symlink (target : List String)
  deriving DecidableEq, Repr

def FS : Type := List (List String × Entry)

def lookupFS : FS → List String → Option Entry
  | [], _ => none
  | (p, e) :: rest, q => if p = q then some e else lookupFS rest q

def removeEntry : FS → List String → FS
  | [], _ => []
  | (p, e) :: rest, q =>
    if p = q then removeEntry rest q else (p, e) :: removeEntry rest q

def insertEntry (fs : FS) (p : List String) (e : Entry) : FS := (p, e) :: fs

/-- One pass over the components of a path: append components to the
resolved prefix while they are not symbolic links; at the first component
that is a symbolic link, return its target together with the still
unprocessed components.  Missing components are kept as-is, matching the
non-strict `Path.resolve`. -/
def walkOnce (fs : FS) : List String → List String →
    List String ⊕ (List String × List String)
  | acc, [] => Sum.inl acc
  | acc, c :: rest =>
    match lookupFS fs (acc ++ [c]) with
    | some (Entry.symlink t) => Sum.inr (t, rest)
    | _ => walkOnce fs (acc ++ [c]) rest

/-- Symlink-chasing resolution; the fuel bounds the number of symlink hops
(the kernel stops at 40 hops with `ELOOP`). -/
def resolveGo (fs : FS) : Nat → List String → List String
  | 0, p => p
  | fuel + 1, p =>
    match walkOnce fs [] p with
    | Sum.inl q => q
    | Sum.inr (t, rest) => resolveGo fs fuel (t ++ rest)

/-- Model of `Path.resolve()` (non-strict) on an absolute path. -/
def resolvePath (fs : FS) (p : List String) : List String :=
  resolveGo fs 40 p

/-- Model of `Path.exists()`: follows symbolic links; true exactly when the
fully resolved path is an existing directory or regular file.  A dangling
link (or a link loop) therefore does not exist. -/
def pathExists (fs : FS) (p : List String) : Bool :=
  match lookupFS fs (resolvePath fs p) with
  | some Entry.dir => true
  | some Entry.file => true
  | _ => false

/-- Component splitter behind `parsePath`. -/
def splitOnSlash : List Char → List Char → List String
  | [], cur => [String.mk cur.reverse]
  | c :: rest, cur =>
    if c = '/' then String.mk cur.reverse :: splitOnSlash rest []
    else splitOnSlash rest (c :: cur)

/-- Model of `Path(string)` component parsing for an absolute path string:
splits on the separator and drops empty components (leading, duplicate and
trailing slashes) as well as `.` components, as `pathlib` normalisation
does.  `~` expansion (`expanduser`) and `..` are not exercised here. -/
def parsePath (s : String) : List String :=
  (splitOnSlash s.data []).filter (fun c => !(c == "") && !(c == "."))

/-- The nonempty prefixes of a path, shortest first. -/
def prefixesOf : List String → List (List String)
  | [] => []
  | c :: rest => [c] :: (prefixesOf rest).map (fun q => c :: q)

/-- A path is a canonical existing directory when every nonempty prefix of
it (itself included) is a directory entry: no symlinks anywhere along it,
so resolving it is the identity. -/
def isCanonicalDir (fs : FS) (p : List String) : Bool :=
  (prefixesOf p).all (fun q =>
    match lookupFS fs q with
    | some Entry.dir => true
    | _ => false)

/-- Mutations `create_pro_symlink` can perform. -/
inductive FsOp : Type
  | unlink (p : List String)
  | symlinkTo (link : List String) (target : List String)
  deriving DecidableEq, Repr

/-- Second half of `create_pro_symlink`:
`if not pro_dir.exists(): pro_dir.symlink_to(output_dir)`.
`symlink_to` fails with `FileExistsError` whenever the link path itself is
already occupied by any entry, dangling symbolic links included. -/
def createStep (fs : FS) (pro od : List String) : FS × List FsOp × Option PyErr :=
  if pathExists fs pro = false then
    match lookupFS fs pro with
    | some _ => (fs, [], some PyErr.fileExistsError)
    | none => (insertEntry fs pro (Entry.symlink od), [FsOp.symlinkTo pro od], none)
  else (fs, [], none)

/-- Translation of `create_pro_symlink(output_dir)`:

    output_dir = Path(output_dir).expanduser().resolve()
    pro_dir = output_dir.parent / "pro"
    if pro_dir.exists() and pro_dir.resolve() != output_dir.resolve():
        pro_dir.unlink()
    if not pro_dir.exists():
        pro_dir.symlink_to(output_dir)

`Path.unlink` removes the link path itself (it does not follow a final
symlink), refuses directories with `IsADirectoryError` and a missing path
with `FileNotFoundError`.  The returned triple is the filesystem after the
call, the list of mutations performed, and the raised exception if any. -/
def create_pro_symlink (fs : FS) (outputDir : String) :
    FS × List FsOp × Option PyErr :=
  let od := resolvePath fs (parsePath outputDir)
  let pro := od.dropLast ++ ["pro"]
  if pathExists fs pro = true ∧ resolvePath fs pro ≠ resolvePath fs od then
    match lookupFS fs pro with
    | some Entry.dir => (fs, [], some PyErr.isADirectoryError)
    | some _ =>
      match createStep (removeEntry fs pro) pro od with
      | (fs2, ops2, e2) => (fs2, FsOp.unlink pro :: ops2, e2)
    | none => (fs, [], some PyErr.fileNotFoundError)
  else createStep fs pro od

/-! ## Lemmas about the filesystem model -/

theorem lookup_insertEntry (fs : FS) (p q : List String) (e : Entry) :
    lookupFS (insertEntry fs p e) q = if p = q then some e else lookupFS fs q := by
  simp [insertEntry, lookupFS]

theorem lookup_removeEntry (r q : List String) :
    ∀ fs : FS, lookupFS (removeEntry fs r) q =
      if q = r then none else lookupFS fs q := by
  intro fs
  induction fs with
  | nil => simp [removeEntry, lookupFS]
  | cons pe rest ih =>
    obtain ⟨p, e⟩ := pe
    by_cases hp : p = r
    · simp only [removeEntry, if_pos hp, ih, lookupFS]
      by_cases hq : q = r
      · simp [hq]
      · have hpq : ¬ p = q := fun h => hq (h.symm.trans hp)
        simp [hq, hpq]
    · simp only [removeEntry, if_neg hp, lookupFS]
      by_cases hpq : p = q
      · subst hpq
        have hqr : ¬ p = r := hp
        simp [hqr]
      · simp [hpq, ih]

theorem prefixesOf_concat (x : String) :
    ∀ xs : List String, prefixesOf (xs ++ [x]) = prefixesOf xs ++ [xs ++ [x]] := by
  intro xs
  induction xs with
  | nil => simp [prefixesOf]
  | cons c rest ih => simp [prefixesOf, ih]

theorem mem_prefixesOf_length (q : List String) :
    ∀ p : List String, q ∈ prefixesOf p → 1 ≤ q.length ∧ q.length ≤ p.length := by
  intro p
  induction p generalizing q with
  | nil => simp [prefixesOf]
  | cons c rest ih =>
    simp only [prefixesOf, List.mem_cons, List.mem_map]
    rintro (rfl | ⟨r, hr, rfl⟩)
    · simp
    · have := ih r hr
      simp only [List.length_cons]
      omega

theorem walkOnce_dirs (fs : FS) :
    ∀ (mids : List String) (acc rest : List String),
      (∀ q ∈ prefixesOf mids, lookupFS fs (acc ++ q) = some Entry.dir) →
      walkOnce fs acc (mids ++ rest) = walkOnce fs (acc ++ mids) rest := by
  intro mids
  induction mids with
  | nil => intro acc rest _; simp
  | cons c ms ih =>
    intro acc rest h
    have hc : lookupFS fs (acc ++ [c]) = some Entry.dir := by
      have := h [c] (by simp [prefixesOf])
      simpa using this
    have hrest : ∀ q ∈ prefixesOf ms,
        lookupFS fs ((acc ++ [c]) ++ q) = some Entry.dir := by
      intro q hq
      have hmem : c :: q ∈ prefixesOf (c :: ms) := by
        simp only [prefixesOf, List.mem_cons, List.mem_map]
        exact Or.inr ⟨q, hq, rfl⟩
      have := h (c :: q) hmem
      simpa [List.append_assoc] using this
    have h1 : walkOnce fs acc ((c :: ms) ++ rest)
        = walkOnce fs (acc ++ [c]) (ms ++ rest) := by
      simp only [List.cons_append, walkOnce, hc, List.append_eq]
    have h2 : walkOnce fs (acc ++ [c]) (ms ++ rest)
        = walkOnce fs ((acc ++ [c]) ++ ms) rest := ih (acc ++ [c]) rest hrest
    rw [h1, h2]
    simp [List.append_assoc]

theorem walkOnce_canonical (fs : FS) (p : List String)
    (h : ∀ q ∈ prefixesOf p, lookupFS fs q = some Entry.dir) :
    walkOnce fs [] p = Sum.inl p := by
  have hw := walkOnce_dirs fs p [] [] (by simpa using h)
  simpa [walkOnce] using hw

theorem resolveGo_canon (fs : FS) (p : List String)
    (h : ∀ q ∈ prefixesOf p, lookupFS fs q = some Entry.dir) :
    ∀ fuel : Nat, resolveGo fs fuel p = p := by
  intro fuel
  cases fuel with
  | zero => rfl
  | succ n => simp [resolveGo, walkOnce_canonical fs p h]

theorem resolveGo_symlink_last (fs : FS) (par : List String) (x : String)
    (t : List String)
    (hpar : ∀ q ∈ prefixesOf par, lookupFS fs q = some Entry.dir)
    (hx : lookupFS fs (par ++ [x]) = some (Entry.symlink t)) :
    ∀ fuel : Nat, resolveGo fs (fuel + 1) (par ++ [x]) = resolveGo fs fuel t := by
  intro fuel
  have hw : walkOnce fs [] (par ++ [x]) = walkOnce fs par [x] := by
    have := walkOnce_dirs fs par [] [x] (by simpa using hpar)
    simpa using this
  have hw2 : walkOnce fs par [x] = Sum.inr (t, []) := by
    simp [walkOnce, hx]
  simp [resolveGo, hw, hw2]

theorem resolveGo_notlink_last (fs : FS) (par : List String) (x : String)
    (hpar : ∀ q ∈ prefixesOf par, lookupFS fs q = some Entry.dir)
    (hx : ∀ t, lookupFS fs (par ++ [x]) ≠ some (Entry.symlink t)) :
    ∀ fuel : Nat, resolveGo fs fuel (par ++ [x]) = par ++ [x] := by
  intro fuel
  cases fuel with
  | zero => rfl
  | succ n =>
    have hw : walkOnce fs [] (par ++ [x]) = walkOnce fs par [x] := by
      have := walkOnce_dirs fs par [] [x] (by simpa using hpar)
      simpa using this
    have hw2 : walkOnce fs par [x] = Sum.inl (par ++ [x]) := by
      cases he : lookupFS fs (par ++ [x]) with
      | none => simp [walkOnce, he]
      | some e =>
        cases e with
        | dir => simp [walkOnce, he]
        | file => simp [walkOnce, he]
        | symlink t => exact absurd he (hx t)
    simp [resolveGo, hw, hw2]

theorem dirs_of_isCanonicalDir (fs : FS) (p : List String)
    (h : isCanonicalDir fs p = true) :
    ∀ q ∈ prefixesOf p, lookupFS fs q = some Entry.dir := by
  intro q hq
  have := (List.all_eq_true.mp h) q hq
  cases he : lookupFS fs q with
  | none => rw [he] at this; simp at this
  | some e =>
    cases e with
    | dir => rfl
    | file => rw [he] at this; simp at this
    | symlink t => rw [he] at this; simp at this

theorem dropLast_concat_eq (xs : List String) (x : String) :
    (xs ++ [x]).dropLast = xs := by
  simp

/-! ## Lemmas about the floor search -/

theorem floorLoop_some_ne_none (run : Nat) :
    ∀ (l : List CalibFile) (x : CalibFile), floorLoop run l (some x) ≠ none := by
  intro l
  induction l with
  | nil => intro x h; exact Option.noConfusion h
  | cons f rest ih =>
    intro x
    simp only [floorLoop]
    by_cases h : f.run ≤ run
    · simpa [h] using ih f
    · simp [h]

theorem floorLoop_none_all_gt (run : Nat) :
    ∀ l : List CalibFile, l.Pairwise (fun a b => a.run ≤ b.run) →
      floorLoop run l none = none → ∀ f ∈ l, run < f.run := by
  intro l
  induction l with
  | nil => intro _ _ f hf; cases hf
  | cons g rest ih =>
    intro hpw hnone f hf
    rw [List.pairwise_cons] at hpw
    simp only [floorLoop] at hnone
    by_cases hg : g.run ≤ run
    · rw [if_pos hg] at hnone
      exact absurd hnone (floorLoop_some_ne_none run rest g)
    · rcases List.mem_cons.mp hf with rfl | hf2
      · omega
      · have := hpw.1 f hf2
        omega

theorem floorLoop_some_spec (run : Nat) :
    ∀ (l : List CalibFile) (x c : CalibFile),
      l.Pairwise (fun a b => a.run ≤ b.run) →
      floorLoop run l (some x) = some c →
      (c = x ∧ ∀ f ∈ l, run < f.run) ∨
      (c ∈ l ∧ c.run ≤ run ∧ ∀ f ∈ l, f.run ≤ run → f.run ≤ c.run) := by
  intro l
  induction l with
  | nil =>
    intro x c _ h
    left
    refine ⟨(Option.some.inj h).symm, ?_⟩
    intro f hf
    cases hf
  | cons g rest ih =>
    intro x c hpw h
    rw [List.pairwise_cons] at hpw
    simp only [floorLoop] at h
    by_cases hg : g.run ≤ run
    · rw [if_pos hg] at h
      rcases ih g c hpw.2 h with ⟨rfl, hall⟩ | ⟨hmem, hle, hmax⟩
      · right
        refine ⟨List.mem_cons_self _ _, hg, ?_⟩
        intro f hf hfle
        rcases List.mem_cons.mp hf with rfl | hf2
        · exact le_refl _
        · have := hall f hf2
          omega
      · right
        refine ⟨List.mem_cons_of_mem _ hmem, hle, ?_⟩
        intro f hf hfle
        rcases List.mem_cons.mp hf with rfl | hf2
        · exact hpw.1 c hmem
        · exact hmax f hf2 hfle
    · rw [if_neg hg] at h
      left
      refine ⟨(Option.some.inj h).symm, ?_⟩
      intro f hf
      rcases List.mem_cons.mp hf with rfl | hf2
      · omega
      · have := hpw.1 f hf2
        omega

theorem floorLoop_start_spec (run : Nat) (l : List CalibFile) (c : CalibFile)
    (hpw : l.Pairwise (fun a b => a.run ≤ b.run))
    (h : floorLoop run l none = some c) :
    c ∈ l ∧ c.run ≤ run ∧ ∀ f ∈ l, f.run ≤ run → f.run ≤ c.run := by
  cases l with
  | nil => cases h
  | cons g rest =>
    rw [List.pairwise_cons] at hpw
    simp only [floorLoop] at h
    by_cases hg : g.run ≤ run
    · rw [if_pos hg] at h
      rcases floorLoop_some_spec run rest g c hpw.2 h with ⟨rfl, hall⟩ | ⟨hmem, hle, hmax⟩
      · refine ⟨List.mem_cons_self _ _, hg, ?_⟩
        intro f hf hfle
        rcases List.mem_cons.mp hf with rfl | hf2
        · exact le_refl _
        · have := hall f hf2
          omega
      · refine ⟨List.mem_cons_of_mem _ hmem, hle, ?_⟩
        intro f hf hfle
        rcases List.mem_cons.mp hf with rfl | hf2
        · exact hpw.1 c hmem
        · exact hmax f hf2 hfle
    · rw [if_neg hg] at h
      cases h

/-! ## Further path helpers -/

theorem self_mem_prefixesOf : ∀ p : List String, p ≠ [] → p ∈ prefixesOf p := by
  intro p
  induction p with
  | nil => intro h; exact absurd rfl h
  | cons c rest ih =>
    intro _
    cases rest with
    | nil => simp [prefixesOf]
    | cons d ds =>
      have hmem : d :: ds ∈ prefixesOf (d :: ds) := ih (by simp)
      have hmap : c :: d :: ds ∈ (prefixesOf (d :: ds)).map (fun q => c :: q) :=
        List.mem_map.mpr ⟨d :: ds, hmem, rfl⟩
      show c :: d :: ds ∈ [c] :: (prefixesOf (d :: ds)).map (fun q => c :: q)
      exact List.mem_cons_of_mem _ hmap

theorem mem_prefixesOf_ne_concat (par : List String) (x : String) (q : List String)
    (hq : q ∈ prefixesOf par) : q ≠ par ++ [x] := by
  have hlen := mem_prefixesOf_length q par hq
  intro h
  have h2 := hlen.2
  rw [h] at h2
  simp at h2

theorem canonical_parts (fs : FS) (par : List String) (a : String)
    (h : isCanonicalDir fs (par ++ [a]) = true) :
    (∀ q ∈ prefixesOf par, lookupFS fs q = some Entry.dir) ∧
    lookupFS fs (par ++ [a]) = some Entry.dir := by
  have hdirs := dirs_of_isCanonicalDir fs (par ++ [a]) h
  constructor
  · intro q hq
    exact hdirs q (by rw [prefixesOf_concat]; exact List.mem_append_left _ hq)
  · exact hdirs (par ++ [a]) (by rw [prefixesOf_concat]; simp)

theorem canonical_after (fs fs2 : FS) (p : List String)
    (hA : isCanonicalDir fs p = true)
    (hsame : ∀ q ∈ prefixesOf p, lookupFS fs2 q = lookupFS fs q) :
    isCanonicalDir fs2 p = true := by
  apply List.all_eq_true.mpr
  intro q hq
  rw [hsame q hq, dirs_of_isCanonicalDir fs p hA q hq]

/-! ## Behaviour of `create_pro_symlink` in the three reachable scenarios -/

theorem promote_noop_when_current (fs : FS) (par : List String) (a : String)
    (s : String)
    (hps : parsePath s = par ++ [a])
    (hA : isCanonicalDir fs (par ++ [a]) = true)
    (hresPro : resolvePath fs (par ++ ["pro"]) = par ++ [a]) :
    create_pro_symlink fs s = (fs, [], none) := by
  obtain ⟨hparDirs, hAdir⟩ := canonical_parts fs par a hA
  have hresA : resolvePath fs (par ++ [a]) = par ++ [a] :=
    resolveGo_canon fs _ (dirs_of_isCanonicalDir fs _ hA) 40
  have hex : pathExists fs (par ++ ["pro"]) = true := by
    simp [pathExists, hresPro, hAdir]
  simp only [create_pro_symlink, hps, hresA, dropLast_concat_eq]
  rw [if_neg (by rintro ⟨h1, h2⟩; exact h2 hresPro)]
  simp [createStep, hex]

theorem promote_creates_link (fs : FS) (par : List String) (a : String)
    (s : String)
    (hps : parsePath s = par ++ [a])
    (hA : isCanonicalDir fs (par ++ [a]) = true)
    (hnone : lookupFS fs (par ++ ["pro"]) = none) :
    create_pro_symlink fs s =
      (insertEntry fs (par ++ ["pro"]) (Entry.symlink (par ++ [a])),
       [FsOp.symlinkTo (par ++ ["pro"]) (par ++ [a])], none) := by
  obtain ⟨hparDirs, hAdir⟩ := canonical_parts fs par a hA
  have hresA : resolvePath fs (par ++ [a]) = par ++ [a] :=
    resolveGo_canon fs _ (dirs_of_isCanonicalDir fs _ hA) 40
  have hnotlink : ∀ t, lookupFS fs (par ++ ["pro"]) ≠ some (Entry.symlink t) := by
    intro t h
    rw [hnone] at h
    cases h
  have hresPro : resolvePath fs (par ++ ["pro"]) = par ++ ["pro"] :=
    resolveGo_notlink_last fs par "pro" hparDirs hnotlink 40
  have hex : pathExists fs (par ++ ["pro"]) = false := by
    simp [pathExists, hresPro, hnone]
  simp only [create_pro_symlink, hps, hresA, dropLast_concat_eq]
  rw [if_neg (by rintro ⟨h1, _⟩; rw [hex] at h1; cases h1)]
  simp [createStep, hex, hnone]

theorem promote_replaces_link (fs : FS) (par : List String) (a : String)
    (s : String) (t : List String)
    (hps : parsePath s = par ++ [a])
    (hA : isCanonicalDir fs (par ++ [a]) = true)
    (ht : lookupFS fs (par ++ ["pro"]) = some (Entry.symlink t))
    (hresPro : resolvePath fs (par ++ ["pro"]) = t)
    (htdir : lookupFS fs t = some Entry.dir)
    (htne : t ≠ par ++ [a]) :
    create_pro_symlink fs s =
      (insertEntry (removeEntry fs (par ++ ["pro"])) (par ++ ["pro"])
        (Entry.symlink (par ++ [a])),
       [FsOp.unlink (par ++ ["pro"]),
        FsOp.symlinkTo (par ++ ["pro"]) (par ++ [a])], none) := by
  obtain ⟨hparDirs, hAdir⟩ := canonical_parts fs par a hA
  have hresA : resolvePath fs (par ++ [a]) = par ++ [a] :=
    resolveGo_canon fs _ (dirs_of_isCanonicalDir fs _ hA) 40
  have hex : pathExists fs (par ++ ["pro"]) = true := by
    simp [pathExists, hresPro, htdir]
  have hpar1 : ∀ q ∈ prefixesOf par,
      lookupFS (removeEntry fs (par ++ ["pro"])) q = some Entry.dir := by
    intro q hq
    rw [lookup_removeEntry, if_neg (mem_prefixesOf_ne_concat par "pro" q hq)]
    exact hparDirs q hq
  have hlook1 : lookupFS (removeEntry fs (par ++ ["pro"])) (par ++ ["pro"]) = none := by
    rw [lookup_removeEntry, if_pos rfl]
  have hnotlink1 : ∀ u, lookupFS (removeEntry fs (par ++ ["pro"])) (par ++ ["pro"]) ≠
      some (Entry.symlink u) := by
    intro u h
    rw [hlook1] at h
    cases h
  have hres1 : resolvePath (removeEntry fs (par ++ ["pro"])) (par ++ ["pro"]) =
      par ++ ["pro"] :=
    resolveGo_notlink_last _ par "pro" hpar1 hnotlink1 40
  have hex1 : pathExists (removeEntry fs (par ++ ["pro"])) (par ++ ["pro"]) = false := by
    simp [pathExists, hres1, hlook1]
  simp only [create_pro_symlink, hps, hresA, dropLast_concat_eq]
  rw [if_pos ⟨hex, by rw [hresPro]; exact htne⟩]
  rw [ht]
  simp [createStep, hex1, hlook1]

theorem prefixes_ne_pro (par : List String) (a : String)
    (hne : par ++ [a] ≠ par ++ ["pro"]) :
    ∀ q ∈ prefixesOf (par ++ [a]), q ≠ par ++ ["pro"] := by
  intro q hq
  rw [prefixesOf_concat] at hq
  rcases List.mem_append.mp hq with h | h
  · exact mem_prefixesOf_ne_concat par "pro" q h
  · simp only [List.mem_singleton] at h
    rw [h]
    exact hne

theorem promoted_state_resolves (fs2 : FS) (par : List String) (a : String)
    (hA2 : isCanonicalDir fs2 (par ++ [a]) = true)
    (hlook2 : lookupFS fs2 (par ++ ["pro"]) = some (Entry.symlink (par ++ [a]))) :
    resolvePath fs2 (par ++ ["pro"]) = par ++ [a] := by
  obtain ⟨hparDirs2, hAdir2⟩ := canonical_parts fs2 par a hA2
  show resolveGo fs2 40 (par ++ ["pro"]) = par ++ [a]
  rw [show (40 : Nat) = 39 + 1 from rfl]
  rw [resolveGo_symlink_last fs2 par "pro" (par ++ [a]) hparDirs2 hlook2 39]
  exact resolveGo_canon fs2 _ (dirs_of_isCanonicalDir fs2 _ hA2) 39

/-- C9: if `pro` exists as a dangling symbolic link, `create_pro_symlink`
does not replace it: the existence check follows the link and reports it
absent, so no unlink happens, and `symlink_to` then fails with
`FileExistsError` because the link path is occupied.  The filesystem is
unchanged and no mutation is performed. -/
theorem c9_dangling_pro_blocks_promote (fs : FS) (par : List String) (a : String)
    (s : String) (t : List String)
    (hps : parsePath s = par ++ [a])
    (hA : isCanonicalDir fs (par ++ [a]) = true)
    (hpro : lookupFS fs (par ++ ["pro"]) = some (Entry.symlink t))
    (hdangling : pathExists fs (par ++ ["pro"]) = false) :
    create_pro_symlink fs s = (fs, [], some PyErr.fileExistsError) := by
  obtain ⟨hparDirs, hAdir⟩ := canonical_parts fs par a hA
  have hresA : resolvePath fs (par ++ [a]) = par ++ [a] :=
    resolveGo_canon fs _ (dirs_of_isCanonicalDir fs _ hA) 40
  simp only [create_pro_symlink, hps, hresA, dropLast_concat_eq]
  rw [if_neg (by rintro ⟨h1, _⟩; rw [hdangling] at h1; cases h1)]
  simp [createStep, hdangling, hpro]

/-- Witness for C9 at a concrete filesystem: `pro` dangles to a removed
directory `data/gone`; promoting the existing `data/v1` raises
`FileExistsError` and mutates nothing. -/
theorem c9_dangling_pro_blocks_promote_witness :
    create_pro_symlink
      [(["data"], Entry.dir), (["data", "v1"], Entry.dir),
       (["data", "pro"], Entry.symlink ["data", "gone"])] "/data/v1" =
    ([(["data"], Entry.dir), (["data", "v1"], Entry.dir),
      (["data", "pro"], Entry.symlink ["data", "gone"])], [],
     some PyErr.fileExistsError) :=
  c9_dangling_pro_blocks_promote
    [(["data"], Entry.dir), (["data", "v1"], Entry.dir),
     (["data", "pro"], Entry.symlink ["data", "gone"])]
    ["data"] "v1" "/data/v1" ["data", "gone"] (by decide) (by decide) (by decide)
    (by decide)

/-- C7: staleness of the existing `pro` pointer is decided by comparing
resolved paths.  When `pro` already reaches the promoted directory through a
chain of symbolic links and the directory is spelled differently (the
concrete witness uses a trailing slash), the pointer is treated as current:
no unlink, no recreation, no error. -/
theorem c7_resolved_path_comparison (fs : FS) (par : List String) (a lk : String)
    (s : String)
    (hps : parsePath s = par ++ [a])
    (hA : isCanonicalDir fs (par ++ [a]) = true)
    (hlink : lookupFS fs (par ++ [lk]) = some (Entry.symlink (par ++ [a])))
    (hpro : lookupFS fs (par ++ ["pro"]) = some (Entry.symlink (par ++ [lk]))) :
    create_pro_symlink fs s = (fs, [], none) := by
  obtain ⟨hparDirs, hAdir⟩ := canonical_parts fs par a hA
  have hdirs := dirs_of_isCanonicalDir fs _ hA
  have hresPro : resolvePath fs (par ++ ["pro"]) = par ++ [a] := by
    show resolveGo fs 40 (par ++ ["pro"]) = par ++ [a]
    rw [show (40 : Nat) = 39 + 1 from rfl]
    rw [resolveGo_symlink_last fs par "pro" (par ++ [lk]) hparDirs hpro 39]
    rw [show (39 : Nat) = 38 + 1 from rfl]
    rw [resolveGo_symlink_last fs par lk (par ++ [a]) hparDirs hlink 38]
    exact resolveGo_canon fs _ hdirs 38
  exact promote_noop_when_current fs par a s hps hA hresPro

/-- Witness for C7: `pro -> current -> v1`, promoting `/data/v1/` (trailing
slash, and reaching `v1` only through the link chain) changes nothing. -/
theorem c7_resolved_path_comparison_witness :
    create_pro_symlink
      [(["data"], Entry.dir), (["data", "v1"], Entry.dir),
       (["data", "current"], Entry.symlink ["data", "v1"]),
       (["data", "pro"], Entry.symlink ["data", "current"])] "/data/v1/" =
    ([(["data"], Entry.dir), (["data", "v1"], Entry.dir),
      (["data", "current"], Entry.symlink ["data", "v1"]),
      (["data", "pro"], Entry.symlink ["data", "current"])], [], none) :=
  c7_resolved_path_comparison
    [(["data"], Entry.dir), (["data", "v1"], Entry.dir),
     (["data", "current"], Entry.symlink ["data", "v1"]),
     (["data", "pro"], Entry.symlink ["data", "current"])]
    ["data"] "v1" "current" "/data/v1/" (by decide) (by decide) (by decide)
    (by decide)

theorem lookup_insert_frame (fs : FS) (pro : List String) (e : Entry) :
    ∀ q, q ≠ pro → lookupFS (insertEntry fs pro e) q = lookupFS fs q := by
  intro q hq
  rw [lookup_insertEntry, if_neg (fun h => hq h.symm)]

theorem lookup_insert_remove_frame (fs : FS) (pro : List String) (e : Entry) :
    ∀ q, q ≠ pro →
      lookupFS (insertEntry (removeEntry fs pro) pro e) q = lookupFS fs q := by
  intro q hq
  rw [lookup_insertEntry, if_neg (fun h => hq h.symm), lookup_removeEntry,
    if_neg hq]

/-- C5: promoting an existing directory twice.  Starting from a state where
the `pro` pointer either does not exist or is a symbolic link to an existing
directory (the documented pointer invariant), the first call succeeds, the
pointer then resolves to the promoted directory, and the second call
performs no filesystem mutation at all: same filesystem, empty operation
list, no error. -/
theorem c5_promote_idempotent (fs : FS) (par : List String) (a : String)
    (s : String)
    (hps : parsePath s = par ++ [a])
    (hA : isCanonicalDir fs (par ++ [a]) = true)
    (hpro : lookupFS fs (par ++ ["pro"]) = none ∨
      ∃ t, lookupFS fs (par ++ ["pro"]) = some (Entry.symlink t) ∧ t ≠ [] ∧
        isCanonicalDir fs t = true) :
    (create_pro_symlink fs s).2.2 = none ∧
    resolvePath (create_pro_symlink fs s).1 (par ++ ["pro"]) = par ++ [a] ∧
    create_pro_symlink (create_pro_symlink fs s).1 s =
      ((create_pro_symlink fs s).1, [], none) := by
  obtain ⟨hparDirs, hAdir⟩ := canonical_parts fs par a hA
  rcases hpro with hnone | ⟨t, ht, htne, htc⟩
  · have hAnp : par ++ [a] ≠ par ++ ["pro"] := by
      intro h
      rw [h, hnone] at hAdir
      cases hAdir
    have h1 := promote_creates_link fs par a s hps hA hnone
    have hfs1 : (create_pro_symlink fs s).1 =
        insertEntry fs (par ++ ["pro"]) (Entry.symlink (par ++ [a])) := by
      rw [h1]
    have hA2 : isCanonicalDir
        (insertEntry fs (par ++ ["pro"]) (Entry.symlink (par ++ [a])))
        (par ++ [a]) = true :=
      canonical_after fs _ _ hA (fun q hq =>
        lookup_insert_frame fs _ _ q (prefixes_ne_pro par a hAnp q hq))
    have hlook2 : lookupFS
        (insertEntry fs (par ++ ["pro"]) (Entry.symlink (par ++ [a])))
        (par ++ ["pro"]) = some (Entry.symlink (par ++ [a])) := by
      rw [lookup_insertEntry, if_pos rfl]
    have hres2 := promoted_state_resolves _ par a hA2 hlook2
    refine ⟨by rw [h1], ?_, ?_⟩
    · rw [hfs1]
      exact hres2
    · rw [hfs1]
      rw [promote_noop_when_current _ par a s hps hA2 hres2]
  · have htdir : lookupFS fs t = some Entry.dir :=
      dirs_of_isCanonicalDir fs t htc t (self_mem_prefixesOf t htne)
    have hresPro : resolvePath fs (par ++ ["pro"]) = t := by
      show resolveGo fs 40 (par ++ ["pro"]) = t
      rw [show (40 : Nat) = 39 + 1 from rfl]
      rw [resolveGo_symlink_last fs par "pro" t hparDirs ht 39]
      exact resolveGo_canon fs t (dirs_of_isCanonicalDir fs t htc) 39
    by_cases hta : t = par ++ [a]
    · rw [hta] at hresPro
      have h1 := promote_noop_when_current fs par a s hps hA hresPro
      have hfs1 : (create_pro_symlink fs s).1 = fs := by rw [h1]
      refine ⟨by rw [h1], ?_, ?_⟩
      · rw [hfs1]
        exact hresPro
      · rw [hfs1, h1]
    · have hAnp : par ++ [a] ≠ par ++ ["pro"] := by
        intro h
        rw [h, ht] at hAdir
        cases hAdir
      have h1 := promote_replaces_link fs par a s t hps hA ht hresPro htdir hta
      have hfs1 : (create_pro_symlink fs s).1 =
          insertEntry (removeEntry fs (par ++ ["pro"])) (par ++ ["pro"])
            (Entry.symlink (par ++ [a])) := by
        rw [h1]
      have hA2 : isCanonicalDir
          (insertEntry (removeEntry fs (par ++ ["pro"])) (par ++ ["pro"])
            (Entry.symlink (par ++ [a]))) (par ++ [a]) = true :=
        canonical_after fs _ _ hA (fun q hq =>
          lookup_insert_remove_frame fs _ _ q (prefixes_ne_pro par a hAnp q hq))
      have hlook2 : lookupFS
          (insertEntry (removeEntry fs (par ++ ["pro"])) (par ++ ["pro"])
            (Entry.symlink (par ++ [a]))) (par ++ ["pro"]) =
          some (Entry.symlink (par ++ [a])) := by
        rw [lookup_insertEntry, if_pos rfl]
      have hres2 := promoted_state_resolves _ par a hA2 hlook2
      refine ⟨by rw [h1], ?_, ?_⟩
      · rw [hfs1]
        exact hres2
      · rw [hfs1]
        rw [promote_noop_when_current _ par a s hps hA2 hres2]

/-- Witness for C5 at a concrete filesystem: promoting `/data/v1` from a
state without a `pro` pointer, then promoting it again, leaves the pointer
resolving to `data/v1` and the second call mutates nothing. -/
theorem c5_promote_idempotent_witness :
    (create_pro_symlink [(["data"], Entry.dir), (["data", "v1"], Entry.dir)]
      "/data/v1").2.2 = none ∧
    resolvePath (create_pro_symlink
      [(["data"], Entry.dir), (["data", "v1"], Entry.dir)] "/data/v1").1
      (["data"] ++ ["pro"]) = ["data"] ++ ["v1"] ∧
    create_pro_symlink (create_pro_symlink
      [(["data"], Entry.dir), (["data", "v1"], Entry.dir)] "/data/v1").1
      "/data/v1" =
      ((create_pro_symlink [(["data"], Entry.dir), (["data", "v1"], Entry.dir)]
        "/data/v1").1, [], none) :=
  c5_promote_idempotent [(["data"], Entry.dir), (["data", "v1"], Entry.dir)]
    ["data"] "v1" "/data/v1" (by decide) (by decide) (Or.inl (by decide))

/-- C6: promoting `dirA` and then its sibling `dirB` leaves the `pro`
pointer resolving to `dirB`; `dirA` still exists as a directory, and in fact
every path other than the pointer itself is untouched — the stale pointer is
the only thing removed. -/
theorem c6_promote_switch_preserves_target (fs : FS) (par : List String)
    (a b : String) (sA sB : String)
    (hab : a ≠ b)
    (hpsA : parsePath sA = par ++ [a])
    (hpsB : parsePath sB = par ++ [b])
    (hA : isCanonicalDir fs (par ++ [a]) = true)
    (hB : isCanonicalDir fs (par ++ [b]) = true)
    (hnone : lookupFS fs (par ++ ["pro"]) = none) :
    (create_pro_symlink (create_pro_symlink fs sA).1 sB).2.2 = none ∧
    resolvePath (create_pro_symlink (create_pro_symlink fs sA).1 sB).1
      (par ++ ["pro"]) = par ++ [b] ∧
    lookupFS (create_pro_symlink (create_pro_symlink fs sA).1 sB).1
      (par ++ [a]) = some Entry.dir ∧
    ∀ q, q ≠ par ++ ["pro"] →
      lookupFS (create_pro_symlink (create_pro_symlink fs sA).1 sB).1 q =
        lookupFS fs q := by
  obtain ⟨hparDirs, hAdir⟩ := canonical_parts fs par a hA
  obtain ⟨_, hBdir⟩ := canonical_parts fs par b hB
  have hAnp : par ++ [a] ≠ par ++ ["pro"] := by
    intro h
    rw [h, hnone] at hAdir
    cases hAdir
  have hBnp : par ++ [b] ≠ par ++ ["pro"] := by
    intro h
    rw [h, hnone] at hBdir
    cases hBdir
  have hABne : par ++ [a] ≠ par ++ [b] := by
    intro h
    exact hab (by simpa using h)
  have h1 := promote_creates_link fs par a sA hpsA hA hnone
  have hfs1 : (create_pro_symlink fs sA).1 =
      insertEntry fs (par ++ ["pro"]) (Entry.symlink (par ++ [a])) := by
    rw [h1]
  have hframe1 := lookup_insert_frame fs (par ++ ["pro"])
    (Entry.symlink (par ++ [a]))
  have hA1 : isCanonicalDir
      (insertEntry fs (par ++ ["pro"]) (Entry.symlink (par ++ [a])))
      (par ++ [a]) = true :=
    canonical_after fs _ _ hA (fun q hq =>
      hframe1 q (prefixes_ne_pro par a hAnp q hq))
  have hB1 : isCanonicalDir
      (insertEntry fs (par ++ ["pro"]) (Entry.symlink (par ++ [a])))
      (par ++ [b]) = true :=
    canonical_after fs _ _ hB (fun q hq =>
      hframe1 q (prefixes_ne_pro par b hBnp q hq))
  have hlook1 : lookupFS
      (insertEntry fs (par ++ ["pro"]) (Entry.symlink (par ++ [a])))
      (par ++ ["pro"]) = some (Entry.symlink (par ++ [a])) := by
    rw [lookup_insertEntry, if_pos rfl]
  have hres1 := promoted_state_resolves _ par a hA1 hlook1
  have htdir1 : lookupFS
      (insertEntry fs (par ++ ["pro"]) (Entry.symlink (par ++ [a])))
      (par ++ [a]) = some Entry.dir := by
    rw [hframe1 (par ++ [a]) hAnp]
    exact hAdir
  have h2 := promote_replaces_link
    (insertEntry fs (par ++ ["pro"]) (Entry.symlink (par ++ [a])))
    par b sB (par ++ [a]) hpsB hB1 hlook1 hres1 htdir1 hABne
  rw [hfs1]
  have hfs2 : (create_pro_symlink
      (insertEntry fs (par ++ ["pro"]) (Entry.symlink (par ++ [a]))) sB).1 =
      insertEntry (removeEntry
        (insertEntry fs (par ++ ["pro"]) (Entry.symlink (par ++ [a])))
        (par ++ ["pro"])) (par ++ ["pro"]) (Entry.symlink (par ++ [b])) := by
    rw [h2]
  have hframe2 : ∀ q, q ≠ par ++ ["pro"] →
      lookupFS (insertEntry (removeEntry
        (insertEntry fs (par ++ ["pro"]) (Entry.symlink (par ++ [a])))
        (par ++ ["pro"])) (par ++ ["pro"]) (Entry.symlink (par ++ [b]))) q =
      lookupFS fs q := by
    intro q hq
    rw [lookup_insert_remove_frame _ _ _ q hq]
    exact hframe1 q hq
  have hB2 : isCanonicalDir (insertEntry (removeEntry
      (insertEntry fs (par ++ ["pro"]) (Entry.symlink (par ++ [a])))
      (par ++ ["pro"])) (par ++ ["pro"]) (Entry.symlink (par ++ [b])))
      (par ++ [b]) = true :=
    canonical_after fs _ _ hB (fun q hq =>
      hframe2 q (prefixes_ne_pro par b hBnp q hq))
  have hlook2 : lookupFS (insertEntry (removeEntry
      (insertEntry fs (par ++ ["pro"]) (Entry.symlink (par ++ [a])))
      (par ++ ["pro"])) (par ++ ["pro"]) (Entry.symlink (par ++ [b])))
      (par ++ ["pro"]) = some (Entry.symlink (par ++ [b])) := by
    rw [lookup_insertEntry, if_pos rfl]
  refine ⟨by rw [h2], ?_, ?_, ?_⟩
  · rw [hfs2]
    exact promoted_state_resolves _ par b hB2 hlook2
  · rw [hfs2, hframe2 (par ++ [a]) hAnp]
    exact hAdir
  · intro q hq
    rw [hfs2, hframe2 q hq]

/-- Witness for C6 at a concrete filesystem: promote `/data/v1`, then
`/data/v2`; afterwards `pro` resolves to `data/v2`, no error was raised,
and `data/v1` is still a directory. -/
theorem c6_promote_switch_preserves_target_witness :
    (create_pro_symlink (create_pro_symlink
      [(["data"], Entry.dir), (["data", "v1"], Entry.dir),
       (["data", "v2"], Entry.dir)] "/data/v1").1 "/data/v2").2.2 = none ∧
    resolvePath (create_pro_symlink (create_pro_symlink
      [(["data"], Entry.dir), (["data", "v1"], Entry.dir),
       (["data", "v2"], Entry.dir)] "/data/v1").1 "/data/v2").1
      (["data"] ++ ["pro"]) = ["data"] ++ ["v2"] ∧
    lookupFS (create_pro_symlink (create_pro_symlink
      [(["data"], Entry.dir), (["data", "v1"], Entry.dir),
       (["data", "v2"], Entry.dir)] "/data/v1").1 "/data/v2").1
      (["data"] ++ ["v1"]) = some Entry.dir :=
  let h := c6_promote_switch_preserves_target
    [(["data"], Entry.dir), (["data", "v1"], Entry.dir),
     (["data", "v2"], Entry.dir)]
    ["data"] "v1" "v2" "/data/v1" "/data/v2" (by decide) (by decide)
    (by decide) (by decide) (by decide) (by decide)
  ⟨h.1, h.2.1, h.2.2.1⟩

/-! ## Distinguishability of error values -/

theorem append_ne_append_of_getElem_ne (a b x y : String) (i : Nat)
    (hia : i < a.data.length) (hib : i < b.data.length)
    (hne : a.data[i]? ≠ b.data[i]?) : a ++ x ≠ b ++ y := by
  intro h
  have hd : (a ++ x).data = (b ++ y).data := by rw [h]
  rw [String.data_append, String.data_append] at hd
  have ha : (a.data ++ x.data)[i]? = a.data[i]? := List.getElem?_append_left hia
  have hb : (b.data ++ y.data)[i]? = b.data[i]? := List.getElem?_append_left hib
  rw [hd, hb] at ha
  exact hne ha.symm

/-- C3: for every parameter choice, the `AmbiguousMatch` error value raised
by the resolution operations differs from each `NotFound` error value they
can raise: the caller can always tell the two failure classes apart.  (Both
are raised as `IOError` in the source; the distinguishing payload is the
message, whose fixed prefixes differ.)  Together with
`c8_missing_arguments_rejected`, `InvalidArgument` is a distinct error type
(`ValueError`) altogether. -/
theorem c3_notfound_ambiguous_distinguishable (r run tr : Nat)
    (d d2 pro : String) (paths : List (List String)) :
    errPedAmbiguous d paths ≠ errPedRunNotFound r ∧
    errPedAmbiguous d paths ≠ errPedDateNotFound d2 ∧
    errPedAmbiguous d paths ≠ errTCEmpty pro ∧
    errPedAmbiguous d paths ≠ errTCNoneBefore run pro ∧
    errPedAmbiguous d paths ≠ errTCRunNotFound tr := by
  refine ⟨?_, ?_, ?_, ?_, ?_⟩
  · intro h
    simp only [errPedAmbiguous, errPedRunNotFound, PyErr.ioError.injEq] at h
    exact append_ne_append_of_getElem_ne _ _ _ _ 0 (by decide) (by decide)
      (by decide) h
  · intro h
    simp only [errPedAmbiguous, errPedDateNotFound, PyErr.ioError.injEq] at h
    exact append_ne_append_of_getElem_ne _ _ _ _ 0 (by decide) (by decide)
      (by decide) h
  · intro h
    simp only [errPedAmbiguous, errTCEmpty, PyErr.ioError.injEq] at h
    exact append_ne_append_of_getElem_ne _ _ _ _ 0 (by decide) (by decide)
      (by decide) h
  · intro h
    simp only [errPedAmbiguous, errTCNoneBefore, PyErr.ioError.injEq] at h
    exact append_ne_append_of_getElem_ne _ _ _ _ 0 (by decide) (by decide)
      (by decide) h
  · intro h
    simp only [errPedAmbiguous, errTCRunNotFound, PyErr.ioError.injEq] at h
    exact append_ne_append_of_getElem_ne _ _ _ _ 1 (by decide) (by decide)
      (by decide) h

/-- Witness for C3 at concrete parameters. -/
theorem c3_notfound_ambiguous_distinguishable_witness :
    errPedAmbiguous "20200101" [] ≠ errPedRunNotFound 5 :=
  (c3_notfound_ambiguous_distinguishable 5 0 0 "20200101" "x" "v1" []).1

/-- C8: calling the pedestal lookup with neither a run number nor a date
raises `ValueError` with the source's message, independently of the
filesystem contents (no search happens), and that error is distinct from
every `IOError` value (`NotFound` / `AmbiguousMatch`). -/
theorem c8_missing_arguments_rejected (base : List String)
    (tree : List CalibFile) (pro : String) :
    find_pedestal_file base tree pro none none = Except.error errMissingArg ∧
    ∀ m, errMissingArg ≠ PyErr.ioError m := by
  refine ⟨rfl, ?_⟩
  intro m h
  simp only [errMissingArg] at h
  exact PyErr.noConfusion h

/-- Witness for C8 at concrete inputs. -/
theorem c8_missing_arguments_rejected_witness :
    find_pedestal_file [] [] "v1" none none = Except.error errMissingArg :=
  (c8_missing_arguments_rejected [] [] "v1").1

/-- C10: once a pedestal run number is supplied, the `date` argument has no
influence on the result of `find_pedestal_file` — the date-scoped branch is
never reached. -/
theorem c10_date_ignored_when_run_given (base : List String)
    (tree : List CalibFile) (pro : String) (r : Nat) (d1 d2 : Option String) :
    find_pedestal_file base tree pro (some r) d1 =
      find_pedestal_file base tree pro (some r) d2 := by
  cases d1 <;> cases d2 <;> rfl

/-- Witness for C10 at concrete inputs. -/
theorem c10_date_ignored_when_run_given_witness :
    find_pedestal_file [] [] "v1" (some 1) none =
      find_pedestal_file [] [] "v1" (some 1) (some "20200101") :=
  c10_date_ignored_when_run_given [] [] "v1" 1 none (some "20200101")

/-! ## The pedestal lookup branches -/

theorem find_pedestal_run_unfold (base : List String) (tree : List CalibFile)
    (pro : String) (r : Nat) (date : Option String) :
    find_pedestal_file base tree pro (some r) date =
      match sortByLe calibLe (tree.filter (fun f => f.pro == pro && f.run == r)) with
      | [] => Except.error (errPedRunNotFound r)
      | f :: _ => Except.ok (pedPath base f) := rfl

theorem find_pedestal_date_unfold (base : List String) (tree : List CalibFile)
    (pro d : String) :
    find_pedestal_file base tree pro none (some d) =
      match sortByLe calibLe (tree.filter (fun f => f.date == d && f.pro == pro)) with
      | [] => Except.error (errPedDateNotFound d)
      | [f] => Except.ok (pedPath base f)
      | fs => Except.error (errPedAmbiguous d (fs.map (pedPath base))) := rfl

/-- C2 (amended): the exact-run pedestal lookup signals `NotFound` when no
file matches, but when one or more files match it silently returns the
first match in sorted path order — it never checks for ambiguity. -/
theorem c2_pedestal_run_returns_first (base : List String)
    (tree : List CalibFile) (pro : String) (r : Nat) (date : Option String) :
    (tree.filter (fun f => f.pro == pro && f.run == r) = [] →
      find_pedestal_file base tree pro (some r) date =
        Except.error (errPedRunNotFound r)) ∧
    (∀ f rest,
      sortByLe calibLe (tree.filter (fun g => g.pro == pro && g.run == r)) =
        f :: rest →
      f ∈ tree ∧ f.pro = pro ∧ f.run = r ∧
      find_pedestal_file base tree pro (some r) date =
        Except.ok (pedPath base f)) := by
  constructor
  · intro h
    rw [find_pedestal_run_unfold, h]
    rfl
  · intro f rest h
    have hf : f ∈ tree.filter (fun g => g.pro == pro && g.run == r) := by
      have hmem : f ∈ sortByLe calibLe
          (tree.filter (fun g => g.pro == pro && g.run == r)) := by
        rw [h]
        exact List.mem_cons_self _ _
      exact (mem_sortByLe _ _ _).mp hmem
    have hf2 := List.mem_filter.mp hf
    have hpe : f.pro = pro ∧ f.run = r := by
      have hb := hf2.2
      simp only [Bool.and_eq_true, beq_iff_eq] at hb
      exact hb
    refine ⟨hf2.1, hpe.1, hpe.2, ?_⟩
    rw [find_pedestal_run_unfold, h]

/-- Counterexample to C2 as stated: two pedestal files of production `v1`
both match run 5 (processed under two dates), yet the lookup silently
returns the first one instead of signalling `AmbiguousMatch`. -/
theorem c2_counterexample :
    2 ≤ (([⟨"20200101", "v1", 5⟩, ⟨"20200505", "v1", 5⟩] : List CalibFile).filter
      (fun f => f.pro == "v1" && f.run == 5)).length ∧
    find_pedestal_file [] [⟨"20200101", "v1", 5⟩, ⟨"20200505", "v1", 5⟩] "v1"
      (some 5) none = Except.ok (pedPath [] ⟨"20200101", "v1", 5⟩) := by
  exact ⟨by decide, rfl⟩

/-- Witness for C2 (amended) at the same two-match tree. -/
theorem c2_pedestal_run_returns_first_witness :
    (⟨"20200101", "v1", 5⟩ : CalibFile) ∈
      ([⟨"20200101", "v1", 5⟩, ⟨"20200505", "v1", 5⟩] : List CalibFile) ∧
    (⟨"20200101", "v1", 5⟩ : CalibFile).pro = "v1" ∧
    (⟨"20200101", "v1", 5⟩ : CalibFile).run = 5 ∧
    find_pedestal_file [] [⟨"20200101", "v1", 5⟩, ⟨"20200505", "v1", 5⟩] "v1"
      (some 5) none = Except.ok (pedPath [] ⟨"20200101", "v1", 5⟩) :=
  (c2_pedestal_run_returns_first []
      [⟨"20200101", "v1", 5⟩, ⟨"20200505", "v1", 5⟩] "v1" 5 none).2
    ⟨"20200101", "v1", 5⟩ [⟨"20200505", "v1", 5⟩] (by decide)

/-- C4: the date-scoped pedestal lookup is a unique-match lookup: zero
matches signal `NotFound`, a single match is returned, two or more matches
signal `AmbiguousMatch` whose message carries every matching path. -/
theorem c4_pedestal_date_unique (base : List String) (tree : List CalibFile)
    (pro d : String) :
    (tree.filter (fun f => f.date == d && f.pro == pro) = [] →
      find_pedestal_file base tree pro none (some d) =
        Except.error (errPedDateNotFound d)) ∧
    (∀ f, tree.filter (fun f => f.date == d && f.pro == pro) = [f] →
      find_pedestal_file base tree pro none (some d) =
        Except.ok (pedPath base f)) ∧
    (2 ≤ (tree.filter (fun f => f.date == d && f.pro == pro)).length →
      find_pedestal_file base tree pro none (some d) =
        Except.error (errPedAmbiguous d
          ((sortByLe calibLe (tree.filter (fun f => f.date == d && f.pro == pro))).map
            (pedPath base)))) := by
  refine ⟨?_, ?_, ?_⟩
  · intro h
    rw [find_pedestal_date_unfold, h]
    rfl
  · intro f h
    rw [find_pedestal_date_unfold, h]
    rfl
  · intro h
    rcases hS : sortByLe calibLe (tree.filter (fun f => f.date == d && f.pro == pro))
      with _ | ⟨f, _ | ⟨g, rest⟩⟩
    · have hlen := length_sortByLe calibLe
        (tree.filter (fun f => f.date == d && f.pro == pro))
      rw [hS] at hlen
      simp at hlen
      omega
    · have hlen := length_sortByLe calibLe
        (tree.filter (fun f => f.date == d && f.pro == pro))
      rw [hS] at hlen
      simp at hlen
      omega
    · rw [find_pedestal_date_unfold, hS]

/-- Witness for C4: the three outcomes at concrete trees — no file, exactly
one file, and two files for the same date. -/
theorem c4_pedestal_date_unique_witness :
    find_pedestal_file [] [] "v1" none (some "20200101") =
      Except.error (errPedDateNotFound "20200101") ∧
    find_pedestal_file [] [⟨"20200101", "v1", 7⟩] "v1" none (some "20200101") =
      Except.ok (pedPath [] ⟨"20200101", "v1", 7⟩) ∧
    find_pedestal_file [] [⟨"20200101", "v1", 7⟩, ⟨"20200101", "v1", 8⟩] "v1"
      none (some "20200101") =
      Except.error (errPedAmbiguous "20200101"
        ((sortByLe calibLe
          (([⟨"20200101", "v1", 7⟩, ⟨"20200101", "v1", 8⟩] : List CalibFile).filter
            (fun f => f.date == "20200101" && f.pro == "v1"))).map (pedPath []))) :=
  ⟨(c4_pedestal_date_unique [] [] "v1" "20200101").1 (by decide),
   (c4_pedestal_date_unique [] [⟨"20200101", "v1", 7⟩] "v1" "20200101").2.1
     ⟨"20200101", "v1", 7⟩ (by decide),
   (c4_pedestal_date_unique [] [⟨"20200101", "v1", 7⟩, ⟨"20200101", "v1", 8⟩]
     "v1" "20200101").2.2 (by decide)⟩

/-! ## The time-calibration floor lookup -/

theorem find_tc_floor_unfold (base : List String) (tree : List CalibFile)
    (pro : String) (run : Nat) :
    find_time_calibration_file base tree pro run none =
      match sortByLe calibLe (tree.filter (fun f => f.pro == pro)) with
      | [] => Except.error (errTCEmpty pro)
      | f :: rest =>
        match floorLoop run (f :: rest) none with
        | none => Except.error (errTCNoneBefore run pro)
        | some c => Except.ok (tcPath base c) := rfl

/-- C1 (amended): provided the path-sorted candidate list has nondecreasing
run numbers (which holds in operation, where run numbers grow with the date
directories the sort is keyed on), the floor lookup returns a candidate with
the greatest run number at most the target, and signals `NotFound` when
every candidate's run number exceeds the target — even though candidates
exist. -/
theorem c1_time_calibration_floor (base : List String) (tree : List CalibFile)
    (pro : String) (run : Nat)
    (hmono : (sortByLe calibLe (tree.filter (fun f => f.pro == pro))).Pairwise
      (fun a b => a.run ≤ b.run)) :
    ((∃ f ∈ tree, f.pro = pro ∧ f.run ≤ run) →
      ∃ c, c ∈ tree ∧ c.pro = pro ∧ c.run ≤ run ∧
        find_time_calibration_file base tree pro run none =
          Except.ok (tcPath base c) ∧
        ∀ f ∈ tree, f.pro = pro → f.run ≤ run → f.run ≤ c.run) ∧
    ((∃ f ∈ tree, f.pro = pro) → (∀ f ∈ tree, f.pro = pro → run < f.run) →
      find_time_calibration_file base tree pro run none =
        Except.error (errTCNoneBefore run pro)) := by
  have hmem : ∀ f : CalibFile,
      f ∈ sortByLe calibLe (tree.filter (fun g => g.pro == pro)) ↔
      f ∈ tree ∧ f.pro = pro := by
    intro f
    rw [mem_sortByLe, List.mem_filter]
    simp
  constructor
  · rintro ⟨f0, hf0t, hf0p, hf0r⟩
    rcases hS : sortByLe calibLe (tree.filter (fun g => g.pro == pro))
      with _ | ⟨g, rest⟩
    · exact absurd ((hmem f0).mpr ⟨hf0t, hf0p⟩) (by rw [hS]; simp)
    · rw [hS] at hmono
      rcases hFL : floorLoop run (g :: rest) none with _ | c
      · have hall := floorLoop_none_all_gt run (g :: rest) hmono hFL
        have hf0mem : f0 ∈ g :: rest := by
          rw [← hS]
          exact (hmem f0).mpr ⟨hf0t, hf0p⟩
        have := hall f0 hf0mem
        omega
      · obtain ⟨hcmem, hcle, hcmax⟩ :=
          floorLoop_start_spec run (g :: rest) c hmono hFL
        have hc2 : c ∈ tree ∧ c.pro = pro := (hmem c).mp (by rw [hS]; exact hcmem)
        refine ⟨c, hc2.1, hc2.2, hcle, ?_, ?_⟩
        · rw [find_tc_floor_unfold, hS]
          simp only [hFL]
        · intro f hft hfp hfr
          exact hcmax f (by rw [← hS]; exact (hmem f).mpr ⟨hft, hfp⟩) hfr
  · rintro ⟨f0, hf0t, hf0p⟩ hall
    rcases hS : sortByLe calibLe (tree.filter (fun g => g.pro == pro))
      with _ | ⟨g, rest⟩
    · exact absurd ((hmem f0).mpr ⟨hf0t, hf0p⟩) (by rw [hS]; simp)
    · rw [hS] at hmono
      rcases hFL : floorLoop run (g :: rest) none with _ | c
      · rw [find_tc_floor_unfold, hS]
        simp only [hFL]
      · obtain ⟨hcmem, hcle, _⟩ :=
          floorLoop_start_spec run (g :: rest) c hmono hFL
        have hc2 : c ∈ tree ∧ c.pro = pro := (hmem c).mp (by rw [hS]; exact hcmem)
        have := hall c hc2.1 hc2.2
        omega

/-- Counterexample to C1 as stated: candidates are visited in path-sorted
order (date directory first) with an early exit, so when run numbers are not
monotone in that order the lookup misses qualifying candidates.  Here run
200 was stored under an earlier date than run 100: the floor query at 150
signals `NotFound` although the run-100 candidate qualifies (and is the
greatest one `<= 150`), and the floor query at 250 returns the run-100
candidate although run 200 is the greatest one `<= 250`. -/
theorem c1_counterexample :
    (∃ f ∈ ([⟨"20200101", "v1", 200⟩, ⟨"20200202", "v1", 100⟩] : List CalibFile),
      f.pro = "v1" ∧ f.run ≤ 150) ∧
    find_time_calibration_file []
      [⟨"20200101", "v1", 200⟩, ⟨"20200202", "v1", 100⟩] "v1" 150 none =
      Except.error (errTCNoneBefore 150 "v1") ∧
    find_time_calibration_file []
      [⟨"20200101", "v1", 200⟩, ⟨"20200202", "v1", 100⟩] "v1" 250 none =
      Except.ok (tcPath [] ⟨"20200202", "v1", 100⟩) := by
  refine ⟨⟨⟨"20200202", "v1", 100⟩, by simp, rfl, by norm_num⟩, rfl, rfl⟩

/-- Witness for C1 (amended) on the specification's end-to-end scenario:
artifacts at runs 100, 105, 110; the floor at 107 is the run-105 artifact,
and the floor at 99 signals `NotFound`. -/
theorem c1_time_calibration_floor_witness :
    find_time_calibration_file []
      [⟨"20200101", "v1", 100⟩, ⟨"20200103", "v1", 105⟩,
       ⟨"20200105", "v1", 110⟩] "v1" 107 none =
      Except.ok (tcPath [] ⟨"20200103", "v1", 105⟩) ∧
    find_time_calibration_file []
      [⟨"20200101", "v1", 100⟩, ⟨"20200103", "v1", 105⟩,
       ⟨"20200105", "v1", 110⟩] "v1" 99 none =
      Except.error (errTCNoneBefore 99 "v1") := by
  constructor
  · obtain ⟨c, hct, hcp, hcr, heq, hmax⟩ :=
      (c1_time_calibration_floor []
        [⟨"20200101", "v1", 100⟩, ⟨"20200103", "v1", 105⟩,
         ⟨"20200105", "v1", 110⟩] "v1" 107 (by decide)).1
        ⟨⟨"20200101", "v1", 100⟩, by simp, rfl, by norm_num⟩
    rw [heq]
    have hcases : c = ⟨"20200101", "v1", 100⟩ ∨ c = ⟨"20200103", "v1", 105⟩ ∨
        c = ⟨"20200105", "v1", 110⟩ := by
      simpa using hct
    rcases hcases with rfl | rfl | rfl
    · exact absurd (hmax ⟨"20200103", "v1", 105⟩ (by simp) rfl (by norm_num))
        (by decide)
    · rfl
    · exact absurd hcr (by decide)
  · exact (c1_time_calibration_floor []
      [⟨"20200101", "v1", 100⟩, ⟨"20200103", "v1", 105⟩,
       ⟨"20200105", "v1", 110⟩] "v1" 99 (by decide)).2
      ⟨⟨"20200101", "v1", 100⟩, by simp, rfl⟩ (by decide)
